import Mathlib

/-!
Shallow embedding of the VSocky core units: the base64 codec
(`base64_encode`, `base64_decode`) and the `Connection` socket wrapper
(`read`, `write`, `close`, move transfer, `set_non_blocking`), together
with proofs of the behavioural properties stated for them.

Bytes are modelled as `Nat` values (the C type is `uint8_t`, so theorems
carry the bound `b < 256` where it matters). Machine operations on
nonnegative values are rendered arithmetically: `x << k` is `x * 2 ^ k`,
`x >> k` is `x / 2 ^ k`, `x & 0x3F` is `x % 64`, `x & 0xFF` is `x % 256`,
and an or of bit-disjoint shifted bytes is a sum.
-/

deriving instance DecidableEq for Except

namespace vsocky

/-- Error taxonomy of the repository (`enum class error_code`). -/
inductive error_code where
  | success
  | socket_creation_failed
  | bind_failed
  | listen_failed
  | accept_failed
  | connection_closed
  | read_failed
  | write_failed
  | message_too_large
  | invalid_message_format
  | invalid_json
  | missing_required_field
  | invalid_field_value
  | unsupported_message_type
  | unsupported_language
  | resource_unavailable
  | internal_error
  | invalid_base64_encoding
  | timeout
  | interrupted
  deriving DecidableEq, Repr

/-- Base64 alphabet mapping 6-bit values to ASCII characters
(`encode_table` in the source). -/
def encode_table : List Char :=
  ['A', 'B', 'C', 'D', 'E', 'F', 'G', 'H',
   'I', 'J', 'K', 'L', 'M', 'N', 'O', 'P',
   'Q', 'R', 'S', 'T', 'U', 'V', 'W', 'X',
   'Y', 'Z', 'a', 'b', 'c', 'd', 'e', 'f',
   'g', 'h', 'i', 'j', 'k', 'l', 'm', 'n',
   'o', 'p', 'q', 'r', 's', 't', 'u', 'v',
   'w', 'x', 'y', 'z', '0', '1', '2', '3',
   '4', '5', '6', '7', '8', '9', '+', '/']

/-- Table lookup `encode_table[v]` for a 6-bit value; the index is always
in range at every use site (it is masked with `& 0x3F`). -/
def encodeChar (n : Nat) : Char := encode_table.getD n 'A'

/-- Reverse lookup built by `create_decode_table`: the index of a character
in `encode_table`, `-2` for the padding character, `-1` otherwise. -/
def decode_table (c : Char) : Int :=
  if c ∈ encode_table then (encode_table.indexOf c : Int)
  else if c = '=' then -2 else -1

/-- Base64 encoder `base64_encode`: three input bytes become four output
characters; a trailing group of one or two bytes is zero padded and
completed with two or one `=` characters. -/
def base64_encode : List Nat → List Char
  | b0 :: b1 :: b2 :: rest =>
    encodeChar ((b0 * 2 ^ 16 + b1 * 2 ^ 8 + b2) / 2 ^ 18 % 64) ::
      encodeChar ((b0 * 2 ^ 16 + b1 * 2 ^ 8 + b2) / 2 ^ 12 % 64) ::
        encodeChar ((b0 * 2 ^ 16 + b1 * 2 ^ 8 + b2) / 2 ^ 6 % 64) ::
          encodeChar ((b0 * 2 ^ 16 + b1 * 2 ^ 8 + b2) % 64) :: base64_encode rest
  | [b0, b1] =>
    [encodeChar ((b0 * 2 ^ 16 + b1 * 2 ^ 8) / 2 ^ 18 % 64),
     encodeChar ((b0 * 2 ^ 16 + b1 * 2 ^ 8) / 2 ^ 12 % 64),
     encodeChar ((b0 * 2 ^ 16 + b1 * 2 ^ 8) / 2 ^ 6 % 64), '=']
  | [b0] =>
    [encodeChar (b0 * 2 ^ 16 / 2 ^ 18 % 64), encodeChar (b0 * 2 ^ 16 / 2 ^ 12 % 64),
     '=', '=']
  | [] => []

/-- Two's-complement `v & 0x3F` on an `int8_t` table value. -/
def and63 (v : Int) : Nat := (v % 64).toNat

/-- The 24-bit value reassembled from the four 6-bit group values, with the
padding marker `-2` replaced by `0` in the last two positions, as in the
source. -/
def group_triple (v0 v1 v2 v3 : Int) : Nat :=
  and63 v0 * 2 ^ 18 + and63 v1 * 2 ^ 12 +
    and63 (if v2 = -2 then 0 else v2) * 2 ^ 6 + and63 (if v3 = -2 then 0 else v3)

/-- The bytes pushed for one 4-character group: the second and third bytes
are dropped when the corresponding group value is the padding marker. -/
def group_bytes (v0 v1 v2 v3 : Int) : List Nat :=
  group_triple v0 v1 v2 v3 / 2 ^ 16 % 256 ::
    ((if v2 = -2 then [] else [group_triple v0 v1 v2 v3 / 2 ^ 8 % 256]) ++
      (if v3 = -2 then [] else [group_triple v0 v1 v2 v3 % 256]))

/-- Trailing padding count computed at the top of `base64_decode`. -/
def padCount (s : List Char) : Nat :=
  if 2 ≤ s.length ∧ s.getD (s.length - 1) ' ' = '=' then
    if s.getD (s.length - 2) ' ' = '=' then 2 else 1
  else 0

/-- The group loop of `base64_decode`: `i` is the index of the current group
in the whole input of length `len` with `pad` trailing padding characters;
a table value `-1`, or a padding marker before position `len - pad`, is
rejected. The loop is reached only for inputs whose length is a positive
multiple of four, so the short trailing patterns are never taken. -/
def decodeLoop (len pad : Nat) : Nat → List Char → Except error_code (List Nat)
  | i, c0 :: c1 :: c2 :: c3 :: rest =>
    if decode_table c0 = -1 ∨ (decode_table c0 = -2 ∧ i < len - pad) then
      Except.error error_code.invalid_base64_encoding
    else if decode_table c1 = -1 ∨ (decode_table c1 = -2 ∧ i + 1 < len - pad) then
      Except.error error_code.invalid_base64_encoding
    else if decode_table c2 = -1 ∨ (decode_table c2 = -2 ∧ i + 2 < len - pad) then
      Except.error error_code.invalid_base64_encoding
    else if decode_table c3 = -1 ∨ (decode_table c3 = -2 ∧ i + 3 < len - pad) then
      Except.error error_code.invalid_base64_encoding
    else
      match decodeLoop len pad (i + 4) rest with
      | Except.ok tail =>
        Except.ok (group_bytes (decode_table c0) (decode_table c1)
          (decode_table c2) (decode_table c3) ++ tail)
      | Except.error e => Except.error e
  | _, [] => Except.ok []
  | _, [_] => Except.ok []
  | _, [_, _] => Except.ok []
  | _, [_, _, _] => Except.ok []

/-- Base64 decoder `base64_decode`: empty input decodes to empty output, a
length that is not a multiple of four is rejected, and otherwise the input
is processed four characters at a time. -/
def base64_decode (s : List Char) : Except error_code (List Nat) :=
  if s = [] then Except.ok []
  else if s.length % 4 ≠ 0 then Except.error error_code.invalid_base64_encoding
  else decodeLoop s.length (padCount s) 0 s

/-- POSIX errno values distinguished by `Connection::read` and
`Connection::write` (`other` stands for every remaining errno). -/
inductive Errno where
  | eagain
  | eintr
  | econnreset
  | epipe
  | ebadf
  | enotconn
  | enotsock
  | other
  deriving DecidableEq, Repr

/-- Result of the underlying `::read` / `::write` system call: a
nonnegative byte count, or `-1` together with an errno value. -/
inductive SysResult where
  | ok (n : Nat)
  | err (e : Errno)
  deriving DecidableEq, Repr

/-- The `Connection` state: the owned descriptor `fd_`, with `-1` as the
sentinel for the handle-less state. -/
structure Connection where
  fd : Int
  deriving DecidableEq, Repr

/-- Observer `is_valid()`. -/
def Connection.is_valid (c : Connection) : Bool := c.fd != -1

/-- Embedding of `Connection::read`: `bufsize` is the capacity of the
destination span and `sys` is the behaviour of the `::read` call in case
one is made. Returns the reported error code and `bytes_read`. -/
def Connection.read (c : Connection) (bufsize : Nat) (sys : SysResult) :
    error_code × Nat :=
  if c.fd = -1 then (.connection_closed, 0)
  else if bufsize = 0 then (.success, 0)
  else
    match sys with
    | .ok n => if 0 < n then (.success, n) else (.connection_closed, 0)
    | .err e =>
      match e with
      | .eagain => (.success, 0)
      | .eintr => (.interrupted, 0)
      | .econnreset => (.connection_closed, 0)
      | .ebadf => (.read_failed, 0)
      | .enotconn => (.read_failed, 0)
      | .enotsock => (.read_failed, 0)
      | .epipe => (.read_failed, 0)
      | .other => (.read_failed, 0)

/-- Embedding of `Connection::write`: `datasize` is the size of the input
span and `sys` the behaviour of the `::write` call in case one is made.
Returns the reported error code and `bytes_written`. Note `::write`
returning any nonnegative count, zero included, is a success. -/
def Connection.write (c : Connection) (datasize : Nat) (sys : SysResult) :
    error_code × Nat :=
  if c.fd = -1 then (.connection_closed, 0)
  else if datasize = 0 then (.success, 0)
  else
    match sys with
    | .ok n => (.success, n)
    | .err e =>
      match e with
      | .eagain => (.success, 0)
      | .eintr => (.interrupted, 0)
      | .epipe => (.connection_closed, 0)
      | .econnreset => (.connection_closed, 0)
      | .ebadf => (.write_failed, 0)
      | .enotconn => (.write_failed, 0)
      | .enotsock => (.write_failed, 0)
      | .other => (.write_failed, 0)

/-- Embedding of `Connection::close`: returns the new state together with
the list of descriptors released to the OS by this call. -/
def Connection.close (c : Connection) : Connection × List Int :=
  if c.fd ≠ -1 then (⟨-1⟩, [c.fd]) else (c, [])

/-- Embedding of the move constructor `Connection(Connection&&)`: returns
the newly constructed object and the moved-from source. -/
def Connection.moveCtor (a : Connection) : Connection × Connection :=
  (⟨a.fd⟩, ⟨-1⟩)

/-- Embedding of move assignment `operator=(Connection&&)`: `same` models
the `this == &other` self-assignment test. Returns the assigned-to state,
the moved-from state, and the descriptors released to the OS. -/
def Connection.moveAssign (b a : Connection) (same : Bool) :
    Connection × Connection × List Int :=
  if same then (b, b, [])
  else (⟨a.fd⟩, ⟨-1⟩, (Connection.close b).2)

/-- Linux value of the `O_NONBLOCK` flag. -/
def O_NONBLOCK : Nat := 2048

/-- Model of the OS state consulted by `fcntl` on the owned descriptor:
`getfl = none` models a failing `F_GETFL`, and `setfl_fails` a failing
`F_SETFL`. -/
structure FcntlState where
  getfl : Option Nat
  setfl_fails : Bool
  deriving DecidableEq, Repr

/-- Embedding of `Connection::set_non_blocking`: get the flags, and set
`O_NONBLOCK` only when it is not already present. -/
def Connection.set_non_blocking (c : Connection) (os : FcntlState) :
    error_code × FcntlState :=
  if c.fd = -1 then (.connection_closed, os)
  else
    match os.getfl with
    | none => (.internal_error, os)
    | some flags =>
      if flags &&& O_NONBLOCK = 0 then
        if os.setfl_fails then (.internal_error, os)
        else (.success, { os with getfl := some (flags ||| O_NONBLOCK) })
      else (.success, os)

theorem decode_encode_table : ∀ n, n < 64 → decode_table (encodeChar n) = (n : Int) := by
  decide

theorem encodeChar_ne_pad : ∀ n, n < 64 → encodeChar n ≠ '=' := by decide

theorem encodeChar_mod_ne_pad (n : Nat) : encodeChar (n % 64) ≠ '=' :=
  encodeChar_ne_pad _ (Nat.mod_lt _ (by omega))

theorem pad_not_mem_table : ('=') ∉ encode_table := by decide

theorem decode_table_pad : decode_table '=' = -2 := by decide

theorem decode_table_eq_neg_two_iff (c : Char) : decode_table c = -2 ↔ c = '=' := by
  by_cases hc : c ∈ encode_table
  · simp only [decode_table, if_pos hc]
    constructor
    · intro h
      omega
    · intro h
      exact absurd (h ▸ hc) pad_not_mem_table
  · by_cases he : c = '='
    · simp [decode_table, hc, he, pad_not_mem_table]
    · simp [decode_table, hc, he]

theorem decode_table_ne_neg_one_of_mem (c : Char) (hc : c ∈ encode_table) :
    decode_table c ≠ -1 := by
  simp only [decode_table, if_pos hc]
  omega

theorem decode_table_eq_neg_one (c : Char) (hc : c ∉ encode_table) (he : c ≠ '=') :
    decode_table c = -1 := by
  simp [decode_table, hc, he]

theorem and63_coe_mod (m : Nat) : and63 (((m % 64 : Nat) : Int)) = m % 64 := by
  unfold and63
  omega

theorem and63_zero : and63 0 = 0 := by decide

theorem encode_length : ∀ x : List Nat, (base64_encode x).length = (x.length + 2) / 3 * 4
  | [] => by simp [base64_encode]
  | [b0] => by simp [base64_encode]
  | [b0, b1] => by simp [base64_encode]
  | b0 :: b1 :: b2 :: rest => by
    have ih := encode_length rest
    simp only [base64_encode, List.length_cons, ih]
    omega

theorem encode_mod1 : ∀ x : List Nat, x.length % 3 = 1 →
    ∃ ys, base64_encode x = ys ++ ['=', '='] ∧ ('=') ∉ ys
  | [] => by intro h; simp at h
  | [b0] => by
    intro h
    refine ⟨[encodeChar (b0 * 2 ^ 16 / 2 ^ 18 % 64),
      encodeChar (b0 * 2 ^ 16 / 2 ^ 12 % 64)], by simp [base64_encode], ?_⟩
    intro hmem
    simp only [List.mem_cons, List.not_mem_nil, or_false] at hmem
    rcases hmem with h1 | h1 <;> exact absurd h1.symm (encodeChar_mod_ne_pad _)
  | [b0, b1] => by intro h; simp at h
  | b0 :: b1 :: b2 :: rest => by
    intro h
    have h' : rest.length % 3 = 1 := by
      simp only [List.length_cons] at h
      omega
    obtain ⟨ys, hys, hmem⟩ := encode_mod1 rest h'
    refine ⟨encodeChar ((b0 * 2 ^ 16 + b1 * 2 ^ 8 + b2) / 2 ^ 18 % 64) ::
      encodeChar ((b0 * 2 ^ 16 + b1 * 2 ^ 8 + b2) / 2 ^ 12 % 64) ::
        encodeChar ((b0 * 2 ^ 16 + b1 * 2 ^ 8 + b2) / 2 ^ 6 % 64) ::
          encodeChar ((b0 * 2 ^ 16 + b1 * 2 ^ 8 + b2) % 64) :: ys, ?_, ?_⟩
    · simp [base64_encode, hys]
    · intro hmem'
      simp only [List.mem_cons] at hmem'
      rcases hmem' with h1 | h1 | h1 | h1 | h1
      · exact absurd h1.symm (encodeChar_mod_ne_pad _)
      · exact absurd h1.symm (encodeChar_mod_ne_pad _)
      · exact absurd h1.symm (encodeChar_mod_ne_pad _)
      · exact absurd h1.symm (encodeChar_mod_ne_pad _)
      · exact absurd h1 hmem

theorem encode_mod2 : ∀ x : List Nat, x.length % 3 = 2 →
    ∃ ys c, base64_encode x = ys ++ [c, '='] ∧ ('=') ∉ ys ∧ c ≠ '='
  | [] => by intro h; simp at h
  | [b0] => by intro h; simp at h
  | [b0, b1] => by
    intro h
    refine ⟨[encodeChar ((b0 * 2 ^ 16 + b1 * 2 ^ 8) / 2 ^ 18 % 64),
      encodeChar ((b0 * 2 ^ 16 + b1 * 2 ^ 8) / 2 ^ 12 % 64)],
      encodeChar ((b0 * 2 ^ 16 + b1 * 2 ^ 8) / 2 ^ 6 % 64),
      by simp [base64_encode], ?_, encodeChar_mod_ne_pad _⟩
    intro hmem
    simp only [List.mem_cons, List.not_mem_nil, or_false] at hmem
    rcases hmem with h1 | h1 <;> exact absurd h1.symm (encodeChar_mod_ne_pad _)
  | b0 :: b1 :: b2 :: rest => by
    intro h
    have h' : rest.length % 3 = 2 := by
      simp only [List.length_cons] at h
      omega
    obtain ⟨ys, c, hys, hmem, hc⟩ := encode_mod2 rest h'
    refine ⟨encodeChar ((b0 * 2 ^ 16 + b1 * 2 ^ 8 + b2) / 2 ^ 18 % 64) ::
      encodeChar ((b0 * 2 ^ 16 + b1 * 2 ^ 8 + b2) / 2 ^ 12 % 64) ::
        encodeChar ((b0 * 2 ^ 16 + b1 * 2 ^ 8 + b2) / 2 ^ 6 % 64) ::
          encodeChar ((b0 * 2 ^ 16 + b1 * 2 ^ 8 + b2) % 64) :: ys, c, ?_, ?_, hc⟩
    · simp [base64_encode, hys]
    · intro hmem'
      simp only [List.mem_cons] at hmem'
      rcases hmem' with h1 | h1 | h1 | h1 | h1
      · exact absurd h1.symm (encodeChar_mod_ne_pad _)
      · exact absurd h1.symm (encodeChar_mod_ne_pad _)
      · exact absurd h1.symm (encodeChar_mod_ne_pad _)
      · exact absurd h1.symm (encodeChar_mod_ne_pad _)
      · exact absurd h1 hmem

theorem getD_append_pair : ∀ (ys : List Char) (a b d : Char),
    (ys ++ [a, b]).getD (ys.length + 1) d = b ∧ (ys ++ [a, b]).getD ys.length d = a
  | [], a, b, d => ⟨rfl, rfl⟩
  | y :: ys, a, b, d => by
    simp only [List.cons_append, List.length_cons, List.getD_cons_succ]
    exact getD_append_pair ys a b d

theorem padCount_append_pad2 (ys : List Char) : padCount (ys ++ ['=', '=']) = 2 := by
  have h := getD_append_pair ys '=' '=' ' '
  have hlen : (ys ++ ['=', '=']).length = ys.length + 2 := by simp
  have e1 : ys.length + 2 - 1 = ys.length + 1 := by omega
  have e2 : ys.length + 2 - 2 = ys.length := by omega
  rw [padCount, hlen, e1, e2, if_pos ⟨by omega, h.1⟩, if_pos h.2]

theorem padCount_append_pad1 (ys : List Char) (c : Char) (hc : c ≠ '=') :
    padCount (ys ++ [c, '=']) = 1 := by
  have h := getD_append_pair ys c '=' ' '
  have hlen : (ys ++ [c, '=']).length = ys.length + 2 := by simp
  have e1 : ys.length + 2 - 1 = ys.length + 1 := by omega
  have e2 : ys.length + 2 - 2 = ys.length := by omega
  rw [padCount, hlen, e1, e2, if_pos ⟨by omega, h.1⟩,
    if_neg (by rw [h.2]; exact hc)]

theorem padCount_encode_mod1 (x : List Nat) (h : x.length % 3 = 1) :
    padCount (base64_encode x) = 2 := by
  obtain ⟨ys, hys, _⟩ := encode_mod1 x h
  rw [hys, padCount_append_pad2]

theorem padCount_encode_mod2 (x : List Nat) (h : x.length % 3 = 2) :
    padCount (base64_encode x) = 1 := by
  obtain ⟨ys, c, hys, _, hc⟩ := encode_mod2 x h
  rw [hys]
  exact padCount_append_pad1 ys c hc

theorem group_bytes_data (n0 n1 n2 n3 : Nat) (h0 : n0 < 64) (h1 : n1 < 64)
    (h2 : n2 < 64) (h3 : n3 < 64) :
    group_bytes ↑n0 ↑n1 ↑n2 ↑n3 =
      [(n0 * 2 ^ 18 + n1 * 2 ^ 12 + n2 * 2 ^ 6 + n3) / 2 ^ 16 % 256,
       (n0 * 2 ^ 18 + n1 * 2 ^ 12 + n2 * 2 ^ 6 + n3) / 2 ^ 8 % 256,
       (n0 * 2 ^ 18 + n1 * 2 ^ 12 + n2 * 2 ^ 6 + n3) % 256] := by
  have hc2 : ((n2 : Int)) ≠ -2 := by omega
  have hc3 : ((n3 : Int)) ≠ -2 := by omega
  simp only [group_bytes, group_triple, if_neg hc2, if_neg hc3, and63,
    List.cons_append, List.nil_append]
  simp only [List.cons.injEq, and_true]
  refine ⟨by omega, by omega, by omega⟩

theorem group_bytes_pad1 (n0 n1 n2 : Nat) (h0 : n0 < 64) (h1 : n1 < 64) (h2 : n2 < 64) :
    group_bytes ↑n0 ↑n1 ↑n2 (-2) =
      [(n0 * 2 ^ 18 + n1 * 2 ^ 12 + n2 * 2 ^ 6) / 2 ^ 16 % 256,
       (n0 * 2 ^ 18 + n1 * 2 ^ 12 + n2 * 2 ^ 6) / 2 ^ 8 % 256] := by
  have hc2 : ((n2 : Int)) ≠ -2 := by omega
  simp only [group_bytes, group_triple, if_neg hc2, reduceIte,
    and63, List.cons_append, List.nil_append, List.append_nil]
  simp only [List.cons.injEq, and_true]
  refine ⟨by omega, by omega⟩

theorem group_bytes_pad2 (n0 n1 : Nat) (h0 : n0 < 64) (h1 : n1 < 64) :
    group_bytes ↑n0 ↑n1 (-2) (-2) = [(n0 * 2 ^ 18 + n1 * 2 ^ 12) / 2 ^ 16 % 256] := by
  simp only [group_bytes, group_triple, reduceIte,
    and63, List.cons_append, List.nil_append, List.append_nil]
  simp only [List.cons.injEq, and_true]
  omega

theorem decodeLoop_encode : ∀ x : List Nat, (∀ b ∈ x, b < 256) →
    ∀ len pad i : Nat, i + (base64_encode x).length = len →
      (x.length % 3 = 2 → 1 ≤ pad) → (x.length % 3 = 1 → 2 ≤ pad) →
      decodeLoop len pad i (base64_encode x) = Except.ok x
  | [], _ => by
    intro len pad i _ _ _
    simp [base64_encode, decodeLoop]
  | [b0], hx => by
    intro len pad i hlen hm2 hm1
    have hb0 : b0 < 256 := hx b0 (by simp)
    have hm : 2 ≤ pad := hm1 (by simp)
    have hlen4 : i + 4 = len := by simpa [base64_encode] using hlen
    have h0 := decode_encode_table (b0 * 2 ^ 16 / 2 ^ 18 % 64) (Nat.mod_lt _ (by omega))
    have h1 := decode_encode_table (b0 * 2 ^ 16 / 2 ^ 12 % 64) (Nat.mod_lt _ (by omega))
    simp only [base64_encode, decodeLoop]
    rw [h0, h1, decode_table_pad]
    rw [if_neg (by omega), if_neg (by omega), if_neg (by omega), if_neg (by omega)]
    simp only [group_bytes_pad2 (b0 * 2 ^ 16 / 2 ^ 18 % 64) (b0 * 2 ^ 16 / 2 ^ 12 % 64)
      (Nat.mod_lt _ (by omega)) (Nat.mod_lt _ (by omega)), List.append_nil]
    simp only [Except.ok.injEq, List.cons.injEq, and_true]
    omega
  | [b0, b1], hx => by
    intro len pad i hlen hm2 hm1
    have hb0 : b0 < 256 := hx b0 (by simp)
    have hb1 : b1 < 256 := hx b1 (by simp)
    have hm : 1 ≤ pad := hm2 (by simp)
    have hlen4 : i + 4 = len := by simpa [base64_encode] using hlen
    have h0 := decode_encode_table ((b0 * 2 ^ 16 + b1 * 2 ^ 8) / 2 ^ 18 % 64)
      (Nat.mod_lt _ (by omega))
    have h1 := decode_encode_table ((b0 * 2 ^ 16 + b1 * 2 ^ 8) / 2 ^ 12 % 64)
      (Nat.mod_lt _ (by omega))
    have h2 := decode_encode_table ((b0 * 2 ^ 16 + b1 * 2 ^ 8) / 2 ^ 6 % 64)
      (Nat.mod_lt _ (by omega))
    simp only [base64_encode, decodeLoop]
    rw [h0, h1, h2, decode_table_pad]
    rw [if_neg (by omega), if_neg (by omega), if_neg (by omega), if_neg (by omega)]
    simp only [group_bytes_pad1 ((b0 * 2 ^ 16 + b1 * 2 ^ 8) / 2 ^ 18 % 64)
      ((b0 * 2 ^ 16 + b1 * 2 ^ 8) / 2 ^ 12 % 64) ((b0 * 2 ^ 16 + b1 * 2 ^ 8) / 2 ^ 6 % 64)
      (Nat.mod_lt _ (by omega)) (Nat.mod_lt _ (by omega)) (Nat.mod_lt _ (by omega)),
      List.append_nil]
    simp only [Except.ok.injEq, List.cons.injEq, and_true]
    omega
  | b0 :: b1 :: b2 :: rest, hx => by
    intro len pad i hlen hm2 hm1
    have hb0 : b0 < 256 := hx b0 (by simp)
    have hb1 : b1 < 256 := hx b1 (by simp)
    have hb2 : b2 < 256 := hx b2 (by simp)
    have hx' : ∀ b ∈ rest, b < 256 := fun b hb => hx b (by simp [hb])
    have hlen' : i + 4 + (base64_encode rest).length = len := by
      simp only [base64_encode, List.length_cons] at hlen
      omega
    have hm2' : rest.length % 3 = 2 → 1 ≤ pad := fun h =>
      hm2 (by simp only [List.length_cons]; omega)
    have hm1' : rest.length % 3 = 1 → 2 ≤ pad := fun h =>
      hm1 (by simp only [List.length_cons]; omega)
    have ih := decodeLoop_encode rest hx' len pad (i + 4) hlen' hm2' hm1'
    have h0 := decode_encode_table ((b0 * 2 ^ 16 + b1 * 2 ^ 8 + b2) / 2 ^ 18 % 64)
      (Nat.mod_lt _ (by omega))
    have h1 := decode_encode_table ((b0 * 2 ^ 16 + b1 * 2 ^ 8 + b2) / 2 ^ 12 % 64)
      (Nat.mod_lt _ (by omega))
    have h2 := decode_encode_table ((b0 * 2 ^ 16 + b1 * 2 ^ 8 + b2) / 2 ^ 6 % 64)
      (Nat.mod_lt _ (by omega))
    have h3 := decode_encode_table ((b0 * 2 ^ 16 + b1 * 2 ^ 8 + b2) % 64)
      (Nat.mod_lt _ (by omega))
    simp only [base64_encode, decodeLoop]
    rw [h0, h1, h2, h3]
    rw [if_neg (by omega), if_neg (by omega), if_neg (by omega), if_neg (by omega)]
    rw [ih]
    simp only [group_bytes_data ((b0 * 2 ^ 16 + b1 * 2 ^ 8 + b2) / 2 ^ 18 % 64)
      ((b0 * 2 ^ 16 + b1 * 2 ^ 8 + b2) / 2 ^ 12 % 64)
      ((b0 * 2 ^ 16 + b1 * 2 ^ 8 + b2) / 2 ^ 6 % 64) ((b0 * 2 ^ 16 + b1 * 2 ^ 8 + b2) % 64)
      (Nat.mod_lt _ (by omega)) (Nat.mod_lt _ (by omega)) (Nat.mod_lt _ (by omega))
      (Nat.mod_lt _ (by omega)), List.cons_append, List.nil_append]
    simp only [Except.ok.injEq, List.cons.injEq, and_true]
    omega

theorem decodeLoop_cases : ∀ (s : List Char) (len pad i : Nat),
    (∃ bs, decodeLoop len pad i s = Except.ok bs) ∨
      decodeLoop len pad i s = Except.error error_code.invalid_base64_encoding
  | [], _, _, _ => Or.inl ⟨[], rfl⟩
  | [_], _, _, _ => Or.inl ⟨[], rfl⟩
  | [_, _], _, _, _ => Or.inl ⟨[], rfl⟩
  | [_, _, _], _, _, _ => Or.inl ⟨[], rfl⟩
  | c0 :: c1 :: c2 :: c3 :: rest, len, pad, i => by
    simp only [decodeLoop]
    by_cases h0 : decode_table c0 = -1 ∨ (decode_table c0 = -2 ∧ i < len - pad)
    · rw [if_pos h0]
      exact Or.inr rfl
    rw [if_neg h0]
    by_cases h1 : decode_table c1 = -1 ∨ (decode_table c1 = -2 ∧ i + 1 < len - pad)
    · rw [if_pos h1]
      exact Or.inr rfl
    rw [if_neg h1]
    by_cases h2 : decode_table c2 = -1 ∨ (decode_table c2 = -2 ∧ i + 2 < len - pad)
    · rw [if_pos h2]
      exact Or.inr rfl
    rw [if_neg h2]
    by_cases h3 : decode_table c3 = -1 ∨ (decode_table c3 = -2 ∧ i + 3 < len - pad)
    · rw [if_pos h3]
      exact Or.inr rfl
    rw [if_neg h3]
    rcases decodeLoop_cases rest len pad (i + 4) with ⟨bs, hbs⟩ | herr
    · rw [hbs]
      exact Or.inl ⟨_, rfl⟩
    · rw [herr]
      exact Or.inr rfl

theorem decodeLoop_valid_of_ok : ∀ (s : List Char) (len pad i : Nat) (bs : List Nat),
    s.length % 4 = 0 → decodeLoop len pad i s = Except.ok bs →
    (∀ c ∈ s, decode_table c ≠ -1) ∧
      (∀ j, j < s.length → s.getD j ' ' = '=' → len - pad ≤ i + j)
  | [], _, _, _, _ => by
    intro _ _
    exact ⟨by simp, fun j hj => by simp at hj⟩
  | [_], _, _, _, _ => by
    intro h _
    simp at h
  | [_, _], _, _, _, _ => by
    intro h _
    simp at h
  | [_, _, _], _, _, _, _ => by
    intro h _
    simp at h
  | c0 :: c1 :: c2 :: c3 :: rest, len, pad, i, bs => by
    intro hlen hok
    have hlen' : rest.length % 4 = 0 := by
      simp only [List.length_cons] at hlen
      omega
    simp only [decodeLoop] at hok
    by_cases h0 : decode_table c0 = -1 ∨ (decode_table c0 = -2 ∧ i < len - pad)
    · rw [if_pos h0] at hok
      exact absurd hok (by simp)
    rw [if_neg h0] at hok
    by_cases h1 : decode_table c1 = -1 ∨ (decode_table c1 = -2 ∧ i + 1 < len - pad)
    · rw [if_pos h1] at hok
      exact absurd hok (by simp)
    rw [if_neg h1] at hok
    by_cases h2 : decode_table c2 = -1 ∨ (decode_table c2 = -2 ∧ i + 2 < len - pad)
    · rw [if_pos h2] at hok
      exact absurd hok (by simp)
    rw [if_neg h2] at hok
    by_cases h3 : decode_table c3 = -1 ∨ (decode_table c3 = -2 ∧ i + 3 < len - pad)
    · rw [if_pos h3] at hok
      exact absurd hok (by simp)
    rw [if_neg h3] at hok
    cases hrec : decodeLoop len pad (i + 4) rest with
    | error e =>
      rw [hrec] at hok
      exact absurd hok (by simp)
    | ok tail =>
      have ih := decodeLoop_valid_of_ok rest len pad (i + 4) tail hlen' hrec
      constructor
      · intro c hc
        simp only [List.mem_cons] at hc
        rcases hc with rfl | rfl | rfl | rfl | hc'
        · exact fun h => h0 (Or.inl h)
        · exact fun h => h1 (Or.inl h)
        · exact fun h => h2 (Or.inl h)
        · exact fun h => h3 (Or.inl h)
        · exact ih.1 c hc'
      · intro j hj hpad
        rcases j with _ | _ | _ | _ | j'
        · simp only [List.getD_cons_zero] at hpad
          have hm2 : decode_table c0 = -2 := (decode_table_eq_neg_two_iff c0).mpr hpad
          by_contra hlt
          exact h0 (Or.inr ⟨hm2, by omega⟩)
        · simp only [List.getD_cons_succ, List.getD_cons_zero] at hpad
          have hm2 : decode_table c1 = -2 := (decode_table_eq_neg_two_iff c1).mpr hpad
          by_contra hlt
          exact h1 (Or.inr ⟨hm2, by omega⟩)
        · simp only [List.getD_cons_succ, List.getD_cons_zero] at hpad
          have hm2 : decode_table c2 = -2 := (decode_table_eq_neg_two_iff c2).mpr hpad
          by_contra hlt
          exact h2 (Or.inr ⟨hm2, by omega⟩)
        · simp only [List.getD_cons_succ, List.getD_cons_zero] at hpad
          have hm2 : decode_table c3 = -2 := (decode_table_eq_neg_two_iff c3).mpr hpad
          by_contra hlt
          exact h3 (Or.inr ⟨hm2, by omega⟩)
        · simp only [List.getD_cons_succ] at hpad
          have hj' : j' < rest.length := by
            simp only [List.length_cons] at hj
            omega
          have := ih.2 j' hj' hpad
          omega

theorem decodeLoop_ok_of_valid : ∀ (s : List Char) (len pad i : Nat),
    s.length % 4 = 0 → pad ≤ 2 → i + s.length = len →
    (∀ c ∈ s, decode_table c ≠ -1) →
    (∀ j, j < s.length → s.getD j ' ' = '=' → len - pad ≤ i + j) →
    ∃ bs, decodeLoop len pad i s = Except.ok bs ∧
      bs.length = s.length / 4 * 3 - s.count '=' ∧ s.count '=' ≤ pad
  | [], len, pad, i => by
    intro _ _ _ _ _
    exact ⟨[], rfl, by simp, by simp⟩
  | [_], _, _, _ => by
    intro h
    simp at h
  | [_, _], _, _, _ => by
    intro h
    simp at h
  | [_, _, _], _, _, _ => by
    intro h
    simp at h
  | c0 :: c1 :: c2 :: c3 :: rest, len, pad, i => by
    intro hlen hpad2 hilen hnone hpos
    have hlen' : rest.length % 4 = 0 := by
      simp only [List.length_cons] at hlen
      omega
    have hilen' : i + 4 + rest.length = len := by
      simp only [List.length_cons] at hilen
      omega
    have hnone' : ∀ c ∈ rest, decode_table c ≠ -1 := fun c hc => hnone c (by simp [hc])
    have hpos' : ∀ j, j < rest.length → rest.getD j ' ' = '=' → len - pad ≤ i + 4 + j := by
      intro j hj hp
      have := hpos (j + 4) (by simp only [List.length_cons]; omega)
        (by simpa [List.getD_cons_succ] using hp)
      omega
    obtain ⟨tail, htail, htlen, htcnt⟩ :=
      decodeLoop_ok_of_valid rest len pad (i + 4) hlen' hpad2 hilen' hnone' hpos'
    have hrcnt : rest.count '=' ≤ rest.length := List.count_le_length _ _
    have hne0 : c0 ≠ '=' := by
      intro h
      have := hpos 0 (by simp only [List.length_cons]; omega) (by simp [h])
      omega
    have hne1 : c1 ≠ '=' := by
      intro h
      have := hpos 1 (by simp only [List.length_cons]; omega)
        (by simp [List.getD_cons_succ, List.getD_cons_zero, h])
      omega
    have hc0 : ¬(decode_table c0 = -1 ∨ (decode_table c0 = -2 ∧ i < len - pad)) := by
      rintro (h | ⟨h2, _⟩)
      · exact hnone c0 (by simp) h
      · exact hne0 ((decode_table_eq_neg_two_iff c0).mp h2)
    have hc1 : ¬(decode_table c1 = -1 ∨ (decode_table c1 = -2 ∧ i + 1 < len - pad)) := by
      rintro (h | ⟨h2, _⟩)
      · exact hnone c1 (by simp) h
      · exact hne1 ((decode_table_eq_neg_two_iff c1).mp h2)
    have hc2 : ¬(decode_table c2 = -1 ∨ (decode_table c2 = -2 ∧ i + 2 < len - pad)) := by
      rintro (h | ⟨h2, hlt⟩)
      · exact hnone c2 (by simp) h
      · have hc2eq := (decode_table_eq_neg_two_iff c2).mp h2
        have := hpos 2 (by simp only [List.length_cons]; omega)
          (by simp [List.getD_cons_succ, List.getD_cons_zero, hc2eq])
        omega
    have hc3 : ¬(decode_table c3 = -1 ∨ (decode_table c3 = -2 ∧ i + 3 < len - pad)) := by
      rintro (h | ⟨h2, hlt⟩)
      · exact hnone c3 (by simp) h
      · have hc3eq := (decode_table_eq_neg_two_iff c3).mp h2
        have := hpos 3 (by simp only [List.length_cons]; omega)
          (by simp [List.getD_cons_succ, List.getD_cons_zero, hc3eq])
        omega
    refine ⟨group_bytes (decode_table c0) (decode_table c1) (decode_table c2)
      (decode_table c3) ++ tail, ?_, ?_⟩
    · simp only [decodeLoop]
      rw [if_neg hc0, if_neg hc1, if_neg hc2, if_neg hc3, htail]
    by_cases hp2 : decode_table c2 = -2
    · have hc2eq : c2 = '=' := (decode_table_eq_neg_two_iff c2).mp hp2
      have hple := hpos 2 (by simp only [List.length_cons]; omega)
        (by simp [List.getD_cons_succ, List.getD_cons_zero, hc2eq])
      have hr0 : rest.length = 0 := by omega
      have hpge : 2 ≤ pad := by omega
      have hrest : rest = [] := List.length_eq_zero.mp hr0
      subst hrest
      have htail0 : tail = [] := by simpa using htlen
      subst htail0
      by_cases hp3 : decode_table c3 = -2
      · have hc3eq : c3 = '=' := (decode_table_eq_neg_two_iff c3).mp hp3
        constructor
        · simp [group_bytes, hp2, hp3, List.count_cons, hne0, hne1, hc2eq, hc3eq,
            decode_table_pad]
        · simp [List.count_cons, hne0, hne1, hc2eq, hc3eq]
          omega
      · have hc3ne : c3 ≠ '=' := fun h => hp3 ((decode_table_eq_neg_two_iff c3).mpr h)
        constructor
        · simp [group_bytes, hp2, hp3, List.count_cons, hne0, hne1, hc2eq, hc3ne,
            decode_table_pad]
        · simp [List.count_cons, hne0, hne1, hc2eq, hc3ne]
          omega
    · have hc2ne : c2 ≠ '=' := fun h => hp2 ((decode_table_eq_neg_two_iff c2).mpr h)
      by_cases hp3 : decode_table c3 = -2
      · have hc3eq : c3 = '=' := (decode_table_eq_neg_two_iff c3).mp hp3
        have hple := hpos 3 (by simp only [List.length_cons]; omega)
          (by simp [List.getD_cons_succ, List.getD_cons_zero, hc3eq])
        have hr0 : rest.length = 0 := by omega
        have hpge : 1 ≤ pad := by omega
        have hrest : rest = [] := List.length_eq_zero.mp hr0
        subst hrest
        have htail0 : tail = [] := by simpa using htlen
        subst htail0
        constructor
        · simp [group_bytes, hp2, hp3, List.count_cons, hne0, hne1, hc2ne, hc3eq,
            decode_table_pad]
        · simp [List.count_cons, hne0, hne1, hc2ne, hc3eq]
          omega
      · have hc3ne : c3 ≠ '=' := fun h => hp3 ((decode_table_eq_neg_two_iff c3).mpr h)
        constructor
        · simp only [List.length_append, List.length_cons, htlen]
          simp [group_bytes, hp2, hp3, List.count_cons, hne0, hne1, hc2ne, hc3ne]
          omega
        · simp [List.count_cons, hne0, hne1, hc2ne, hc3ne]
          exact htcnt

theorem is_valid_false_iff (c : Connection) : c.is_valid = false ↔ c.fd = -1 := by
  simp [Connection.is_valid]

theorem is_valid_true_iff (c : Connection) : c.is_valid = true ↔ c.fd ≠ -1 := by
  simp [Connection.is_valid]

/-- C2: `Connection::read` classifies outcomes: no handle owned →
connection-closed with zero bytes; empty buffer → success with zero bytes
and no system call (the result does not depend on the modelled call);
`::read` returning 0 → connection-closed; EAGAIN → success with zero
bytes; ECONNRESET → connection-closed; EINTR → interrupted; any other OS
failure → read-failed; `::read` returning n > 0 → success with n bytes. -/
theorem connection_read_classification :
    (∀ (c : Connection) (bufsize : Nat) (sys : SysResult), c.is_valid = false →
      c.read bufsize sys = (error_code.connection_closed, 0)) ∧
    (∀ (c : Connection) (sys sys' : SysResult), c.is_valid = true →
      c.read 0 sys = (error_code.success, 0) ∧ c.read 0 sys = c.read 0 sys') ∧
    (∀ (c : Connection) (bufsize : Nat), c.is_valid = true → 0 < bufsize →
      c.read bufsize (SysResult.ok 0) = (error_code.connection_closed, 0)) ∧
    (∀ (c : Connection) (bufsize : Nat), c.is_valid = true → 0 < bufsize →
      c.read bufsize (SysResult.err Errno.eagain) = (error_code.success, 0)) ∧
    (∀ (c : Connection) (bufsize : Nat), c.is_valid = true → 0 < bufsize →
      c.read bufsize (SysResult.err Errno.econnreset) =
        (error_code.connection_closed, 0)) ∧
    (∀ (c : Connection) (bufsize : Nat), c.is_valid = true → 0 < bufsize →
      c.read bufsize (SysResult.err Errno.eintr) = (error_code.interrupted, 0)) ∧
    (∀ (c : Connection) (bufsize : Nat) (e : Errno), c.is_valid = true →
      0 < bufsize → e ≠ Errno.eagain → e ≠ Errno.eintr → e ≠ Errno.econnreset →
      c.read bufsize (SysResult.err e) = (error_code.read_failed, 0)) ∧
    (∀ (c : Connection) (bufsize n : Nat), c.is_valid = true → 0 < bufsize →
      0 < n → c.read bufsize (SysResult.ok n) = (error_code.success, n)) := by
  refine ⟨?_, ?_, ?_, ?_, ?_, ?_, ?_, ?_⟩
  · intro c bufsize sys hv
    simp [Connection.read, (is_valid_false_iff c).mp hv]
  · intro c sys sys' hv
    have hfd := (is_valid_true_iff c).mp hv
    exact ⟨by simp [Connection.read, hfd], by simp [Connection.read, hfd]⟩
  · intro c bufsize hv hb
    simp [Connection.read, (is_valid_true_iff c).mp hv, Nat.pos_iff_ne_zero.mp hb]
  · intro c bufsize hv hb
    simp [Connection.read, (is_valid_true_iff c).mp hv, Nat.pos_iff_ne_zero.mp hb]
  · intro c bufsize hv hb
    simp [Connection.read, (is_valid_true_iff c).mp hv, Nat.pos_iff_ne_zero.mp hb]
  · intro c bufsize hv hb
    simp [Connection.read, (is_valid_true_iff c).mp hv, Nat.pos_iff_ne_zero.mp hb]
  · intro c bufsize e hv hb h1 h2 h3
    have hfd := (is_valid_true_iff c).mp hv
    have hb' := Nat.pos_iff_ne_zero.mp hb
    cases e
    · exact absurd rfl h1
    · exact absurd rfl h2
    · exact absurd rfl h3
    all_goals simp [Connection.read, hfd, hb']
  · intro c bufsize n hv hb hn
    simp [Connection.read, (is_valid_true_iff c).mp hv, Nat.pos_iff_ne_zero.mp hb, hn]

theorem connection_read_classification_witness :
    (Connection.mk 5).is_valid = true ∧ (0 : Nat) < 10 ∧ (0 : Nat) < 7 ∧
      Connection.read ⟨5⟩ 10 (SysResult.ok 7) = (error_code.success, 7) :=
  ⟨by decide, by decide, by decide,
    connection_read_classification.2.2.2.2.2.2.2 ⟨5⟩ 10 7 (by decide) (by decide)
      (by decide)⟩

/-- C3: `Connection::write` classifies outcomes: no handle owned →
connection-closed with zero bytes; empty input → success with zero bytes
and no system call (the result does not depend on the modelled call);
EAGAIN → success with zero bytes; EPIPE or ECONNRESET → connection-closed;
EINTR → interrupted; any other OS failure → write-failed; and a partial
write of M < N bytes is reported as success with M bytes, never as an
error. -/
theorem connection_write_classification :
    (∀ (c : Connection) (datasize : Nat) (sys : SysResult), c.is_valid = false →
      c.write datasize sys = (error_code.connection_closed, 0)) ∧
    (∀ (c : Connection) (sys sys' : SysResult), c.is_valid = true →
      c.write 0 sys = (error_code.success, 0) ∧ c.write 0 sys = c.write 0 sys') ∧
    (∀ (c : Connection) (datasize : Nat), c.is_valid = true → 0 < datasize →
      c.write datasize (SysResult.err Errno.eagain) = (error_code.success, 0)) ∧
    (∀ (c : Connection) (datasize : Nat), c.is_valid = true → 0 < datasize →
      c.write datasize (SysResult.err Errno.epipe) =
        (error_code.connection_closed, 0)) ∧
    (∀ (c : Connection) (datasize : Nat), c.is_valid = true → 0 < datasize →
      c.write datasize (SysResult.err Errno.econnreset) =
        (error_code.connection_closed, 0)) ∧
    (∀ (c : Connection) (datasize : Nat), c.is_valid = true → 0 < datasize →
      c.write datasize (SysResult.err Errno.eintr) = (error_code.interrupted, 0)) ∧
    (∀ (c : Connection) (datasize : Nat) (e : Errno), c.is_valid = true →
      0 < datasize → e ≠ Errno.eagain → e ≠ Errno.eintr → e ≠ Errno.epipe →
      e ≠ Errno.econnreset →
      c.write datasize (SysResult.err e) = (error_code.write_failed, 0)) ∧
    (∀ (c : Connection) (n m : Nat), c.is_valid = true → 0 < n → m < n →
      c.write n (SysResult.ok m) = (error_code.success, m)) := by
  refine ⟨?_, ?_, ?_, ?_, ?_, ?_, ?_, ?_⟩
  · intro c datasize sys hv
    simp [Connection.write, (is_valid_false_iff c).mp hv]
  · intro c sys sys' hv
    have hfd := (is_valid_true_iff c).mp hv
    exact ⟨by simp [Connection.write, hfd], by simp [Connection.write, hfd]⟩
  · intro c datasize hv hb
    simp [Connection.write, (is_valid_true_iff c).mp hv, Nat.pos_iff_ne_zero.mp hb]
  · intro c datasize hv hb
    simp [Connection.write, (is_valid_true_iff c).mp hv, Nat.pos_iff_ne_zero.mp hb]
  · intro c datasize hv hb
    simp [Connection.write, (is_valid_true_iff c).mp hv, Nat.pos_iff_ne_zero.mp hb]
  · intro c datasize hv hb
    simp [Connection.write, (is_valid_true_iff c).mp hv, Nat.pos_iff_ne_zero.mp hb]
  · intro c datasize e hv hb h1 h2 h3 h4
    have hfd := (is_valid_true_iff c).mp hv
    have hb' := Nat.pos_iff_ne_zero.mp hb
    cases e
    · exact absurd rfl h1
    · exact absurd rfl h2
    · exact absurd rfl h4
    · exact absurd rfl h3
    all_goals simp [Connection.write, hfd, hb']
  · intro c n m hv hn hm
    simp [Connection.write, (is_valid_true_iff c).mp hv, Nat.pos_iff_ne_zero.mp hn]

theorem connection_write_classification_witness :
    (Connection.mk 5).is_valid = true ∧ (0 : Nat) < 10 ∧ (4 : Nat) < 10 ∧
      Connection.write ⟨5⟩ 10 (SysResult.ok 4) = (error_code.success, 4) :=
  ⟨by decide, by decide, by decide,
    connection_write_classification.2.2.2.2.2.2.2 ⟨5⟩ 10 4 (by decide) (by decide)
      (by decide)⟩

/-- C10: the byte-count out-parameter of `Connection::read` and
`Connection::write` is initialised to zero and only assigned on the
success path, so whenever the returned outcome is not success the reported
byte count is exactly zero. -/
theorem connection_byte_count_zero_on_failure :
    ∀ (c : Connection) (sz : Nat) (sys : SysResult),
      ((c.read sz sys).1 ≠ error_code.success → (c.read sz sys).2 = 0) ∧
      ((c.write sz sys).1 ≠ error_code.success → (c.write sz sys).2 = 0) := by
  intro c sz sys
  constructor
  · intro h
    by_cases hfd : c.fd = -1
    · simp [Connection.read, hfd]
    by_cases hsz : sz = 0
    · simp [Connection.read, hfd, hsz]
    cases sys with
    | ok n =>
      by_cases hn : 0 < n
      · exact absurd (by simp [Connection.read, hfd, hsz, hn]) h
      · simp [Connection.read, hfd, hsz, hn]
    | err e => cases e <;> simp [Connection.read, hfd, hsz]
  · intro h
    by_cases hfd : c.fd = -1
    · simp [Connection.write, hfd]
    by_cases hsz : sz = 0
    · simp [Connection.write, hfd, hsz]
    cases sys with
    | ok n => exact absurd (by simp [Connection.write, hfd, hsz]) h
    | err e => cases e <;> simp [Connection.write, hfd, hsz]

theorem connection_byte_count_zero_on_failure_witness :
    (Connection.read ⟨-1⟩ 5 (SysResult.ok 3)).1 ≠ error_code.success ∧
      (Connection.read ⟨-1⟩ 5 (SysResult.ok 3)).2 = 0 :=
  ⟨by decide,
    (connection_byte_count_zero_on_failure ⟨-1⟩ 5 (SysResult.ok 3)).1 (by decide)⟩

/-- C7: `Connection::close` is idempotent: a second call leaves the state
unchanged and releases nothing to the OS (so the handle is released
exactly once, by the first call, which releases exactly the owned
descriptor), and `is_valid()` is false after the first call. -/
theorem connection_close_idempotent :
    ∀ c : Connection,
      (Connection.close (Connection.close c).1).1 = (Connection.close c).1 ∧
      (Connection.close (Connection.close c).1).2 = [] ∧
      ((Connection.close c).1).is_valid = false ∧
      (c.is_valid = true → (Connection.close c).2 = [c.fd]) ∧
      (c.is_valid = false → (Connection.close c).2 = []) := by
  intro c
  by_cases hfd : c.fd = -1 <;>
    simp [Connection.close, Connection.is_valid, hfd]

theorem connection_close_idempotent_witness :
    (Connection.mk 7).is_valid = true ∧ (Connection.close ⟨7⟩).2 = [7] :=
  ⟨by decide, (connection_close_idempotent ⟨7⟩).2.2.2.1 (by decide)⟩

/-- C5: after a move (construction or assignment) the destination owns
exactly the handle the source previously owned and is valid when the
source was, while the source is left handle-less: `is_valid()` is false,
`fd()` is `-1`, and `read`/`write` on it return connection-closed with
zero bytes; move assignment into a Connection that already owns a handle
releases exactly that handle to the OS; self-move-assignment is a no-op
that changes nothing and releases nothing. -/
theorem connection_move_semantics :
    (∀ a : Connection,
      a.moveCtor.1.fd = a.fd ∧
      (a.is_valid = true → a.moveCtor.1.is_valid = true) ∧
      a.moveCtor.2.fd = -1 ∧ a.moveCtor.2.is_valid = false ∧
      (∀ (n : Nat) (sys : SysResult),
        a.moveCtor.2.read n sys = (error_code.connection_closed, 0) ∧
        a.moveCtor.2.write n sys = (error_code.connection_closed, 0))) ∧
    (∀ b a : Connection,
      (Connection.moveAssign b a false).1.fd = a.fd ∧
      (a.is_valid = true → (Connection.moveAssign b a false).1.is_valid = true) ∧
      (Connection.moveAssign b a false).2.1.fd = -1 ∧
      (Connection.moveAssign b a false).2.1.is_valid = false ∧
      (b.is_valid = true → (Connection.moveAssign b a false).2.2 = [b.fd]) ∧
      (∀ (n : Nat) (sys : SysResult),
        (Connection.moveAssign b a false).2.1.read n sys =
          (error_code.connection_closed, 0) ∧
        (Connection.moveAssign b a false).2.1.write n sys =
          (error_code.connection_closed, 0))) ∧
    (∀ b : Connection, Connection.moveAssign b b true = (b, b, [])) := by
  refine ⟨?_, ?_, ?_⟩
  · intro a
    refine ⟨rfl, ?_, rfl, by simp [Connection.moveCtor, Connection.is_valid], ?_⟩
    · intro hv
      simpa [Connection.moveCtor, Connection.is_valid] using hv
    · intro n sys
      exact ⟨by simp [Connection.moveCtor, Connection.read],
        by simp [Connection.moveCtor, Connection.write]⟩
  · intro b a
    refine ⟨rfl, ?_, rfl,
      by simp [Connection.moveAssign, Connection.is_valid], ?_, ?_⟩
    · intro hv
      simpa [Connection.moveAssign, Connection.is_valid] using hv
    · intro hv
      simp [Connection.moveAssign, Connection.close, (is_valid_true_iff b).mp hv]
    · intro n sys
      exact ⟨by simp [Connection.moveAssign, Connection.read],
        by simp [Connection.moveAssign, Connection.write]⟩
  · intro b
    simp [Connection.moveAssign]

theorem connection_move_semantics_witness :
    (Connection.mk 9).is_valid = true ∧
      (Connection.moveAssign ⟨3⟩ ⟨9⟩ false).1.is_valid = true ∧
      (Connection.moveAssign ⟨3⟩ ⟨9⟩ false).2.2 = [3] :=
  ⟨by decide, (connection_move_semantics.2.1 ⟨3⟩ ⟨9⟩).2.1 (by decide),
    (connection_move_semantics.2.1 ⟨3⟩ ⟨9⟩).2.2.2.2.1 (by decide)⟩

theorem or_nonblock_and_ne_zero (f : Nat) : (f ||| O_NONBLOCK) &&& O_NONBLOCK ≠ 0 := by
  intro h0
  have hb : Nat.testBit 2048 11 = true := by decide
  have h11 : ((f ||| O_NONBLOCK) &&& O_NONBLOCK).testBit 11 = true := by
    simp [Nat.testBit_and, Nat.testBit_or, O_NONBLOCK, hb]
  rw [h0] at h11
  simp [Nat.zero_testBit] at h11

/-- C6 counterexample: on a Connection that holds no handle,
`set_non_blocking` returns connection-closed even though the modelled OS
call would not fail, contradicting the claim that it returns success in
that situation (and internal-error only on OS failure). -/
theorem set_non_blocking_counterexample :
    Connection.set_non_blocking ⟨-1⟩ ⟨some 0, false⟩ =
      (error_code.connection_closed, ⟨some 0, false⟩) ∧
    error_code.connection_closed ≠ error_code.success ∧
    error_code.connection_closed ≠ error_code.internal_error := by decide

/-- C6 (amended): `Connection::set_non_blocking` is idempotent (repeating
it returns the same outcome and leaves the flag state unchanged); on a
Connection that holds no handle it returns connection-closed; otherwise it
returns internal-error when the OS call fails (`F_GETFL` failing, or
`F_SETFL` failing when the flag must be set) and success otherwise. -/
theorem set_non_blocking_spec :
    (∀ (c : Connection) (os : FcntlState),
      Connection.set_non_blocking c (Connection.set_non_blocking c os).2 =
        Connection.set_non_blocking c os) ∧
    (∀ (c : Connection) (os : FcntlState), c.is_valid = false →
      Connection.set_non_blocking c os = (error_code.connection_closed, os)) ∧
    (∀ (c : Connection) (os : FcntlState), c.is_valid = true → os.getfl = none →
      Connection.set_non_blocking c os = (error_code.internal_error, os)) ∧
    (∀ (c : Connection) (os : FcntlState) (flags : Nat), c.is_valid = true →
      os.getfl = some flags → flags &&& O_NONBLOCK = 0 → os.setfl_fails = true →
      Connection.set_non_blocking c os = (error_code.internal_error, os)) ∧
    (∀ (c : Connection) (os : FcntlState) (flags : Nat), c.is_valid = true →
      os.getfl = some flags → flags &&& O_NONBLOCK = 0 → os.setfl_fails = false →
      Connection.set_non_blocking c os =
        (error_code.success, ⟨some (flags ||| O_NONBLOCK), false⟩)) ∧
    (∀ (c : Connection) (os : FcntlState) (flags : Nat), c.is_valid = true →
      os.getfl = some flags → flags &&& O_NONBLOCK ≠ 0 →
      Connection.set_non_blocking c os = (error_code.success, os)) := by
  refine ⟨?_, ?_, ?_, ?_, ?_, ?_⟩
  · intro c os
    by_cases hfd : c.fd = -1
    · simp [Connection.set_non_blocking, hfd]
    cases hg : os.getfl with
    | none => simp [Connection.set_non_blocking, hfd, hg]
    | some flags =>
      by_cases hflag : flags &&& O_NONBLOCK = 0
      · cases hs : os.setfl_fails
        · simp [Connection.set_non_blocking, hfd, hg, hflag, hs,
            or_nonblock_and_ne_zero flags]
        · simp [Connection.set_non_blocking, hfd, hg, hflag, hs]
      · simp [Connection.set_non_blocking, hfd, hg, hflag]
  · intro c os hv
    simp [Connection.set_non_blocking, (is_valid_false_iff c).mp hv]
  · intro c os hv hg
    simp [Connection.set_non_blocking, (is_valid_true_iff c).mp hv, hg]
  · intro c os flags hv hg hflag hs
    simp [Connection.set_non_blocking, (is_valid_true_iff c).mp hv, hg, hflag, hs]
  · intro c os flags hv hg hflag hs
    simp [Connection.set_non_blocking, (is_valid_true_iff c).mp hv, hg, hflag, hs]
  · intro c os flags hv hg hflag
    simp [Connection.set_non_blocking, (is_valid_true_iff c).mp hv, hg, hflag]

theorem set_non_blocking_spec_witness :
    (Connection.mk 3).is_valid = true ∧ (FcntlState.mk none false).getfl = none ∧
      Connection.set_non_blocking ⟨3⟩ ⟨none, false⟩ =
        (error_code.internal_error, ⟨none, false⟩) :=
  ⟨by decide, rfl, set_non_blocking_spec.2.2.1 ⟨3⟩ ⟨none, false⟩ (by decide) rfl⟩

theorem getD_mem_of_lt : ∀ (l : List Char) (n : Nat) (d : Char), n < l.length →
    l.getD n d ∈ l
  | c :: t, 0, d => fun _ => List.mem_cons_self c t
  | c :: t, n + 1, d => fun h =>
    List.mem_cons_of_mem c (getD_mem_of_lt t n d (by simpa using h))
  | [], n, d => fun h => absurd h (by simp)

theorem getD_append_left : ∀ (l l' : List Char) (n : Nat) (d : Char), n < l.length →
    (l ++ l').getD n d = l.getD n d
  | c :: t, l', 0, d => fun _ => rfl
  | c :: t, l', n + 1, d => fun h => by
    rw [List.cons_append, List.getD_cons_succ, List.getD_cons_succ]
    exact getD_append_left t l' n d (by simpa using h)
  | [], _, n, d => fun h => by simp at h

theorem getD_append_right' : ∀ (l l' : List Char) (k : Nat) (d : Char),
    (l ++ l').getD (l.length + k) d = l'.getD k d
  | [], l', k, d => by simp
  | c :: t, l', k, d => by
    have e : (c :: t).length + k = t.length + k + 1 := by simp; omega
    rw [List.cons_append, e, List.getD_cons_succ]
    exact getD_append_right' t l' k d

theorem padCount_le_two (s : List Char) : padCount s ≤ 2 := by
  rw [padCount]
  split
  · split
    · omega
    · omega
  · omega

theorem padCount_no_pad (l : List Char) (h : ('=') ∉ l) : padCount l = 0 := by
  rw [padCount]
  by_cases h2 : 2 ≤ l.length ∧ l.getD (l.length - 1) ' ' = '='
  · exact absurd (h2.2 ▸ getD_mem_of_lt l (l.length - 1) ' ' (by omega)) h
  · rw [if_neg h2]

theorem padCount_pad_suffix (ys : List Char) (p : Nat) (hp : p ≤ 2)
    (hmem : ('=') ∉ ys) (hlen4 : (ys.length + p) % 4 = 0) :
    padCount (ys ++ List.replicate p '=') = p := by
  interval_cases p
  · simpa using padCount_no_pad ys hmem
  · have hy : 3 ≤ ys.length := by omega
    have hlen : (ys ++ List.replicate 1 '=').length = ys.length + 1 := by simp
    rw [padCount, hlen]
    have e1 : ys.length + 1 - 1 = ys.length + 0 := by omega
    have e2 : ys.length + 1 - 2 = ys.length - 1 := by omega
    rw [e1, e2, getD_append_right']
    rw [if_pos ⟨by omega, rfl⟩]
    rw [getD_append_left ys _ (ys.length - 1) ' ' (by omega)]
    rw [if_neg (show ¬(ys.getD (ys.length - 1) ' ' = '=') from
      fun h => hmem (h ▸ getD_mem_of_lt ys (ys.length - 1) ' ' (by omega)))]
  · exact padCount_append_pad2 ys

/-- C1: decoding inverts encoding: for every byte sequence,
`base64_decode (base64_encode x)` succeeds and returns exactly `x`;
`base64_encode` is a total function defined on every byte input, and
`base64_decode` is total, returning either a byte sequence or specifically
the failure `invalid_base64_encoding`. -/
theorem base64_roundtrip :
    (∀ x : List Nat, (∀ b ∈ x, b < 256) →
      base64_decode (base64_encode x) = Except.ok x) ∧
    (∀ s : List Char, (∃ bs, base64_decode s = Except.ok bs) ∨
      base64_decode s = Except.error error_code.invalid_base64_encoding) := by
  constructor
  · intro x hx
    by_cases hx0 : x = []
    · subst hx0
      rfl
    · have hlen := encode_length x
      have hx1 : 0 < x.length := List.length_pos.mpr hx0
      have hne : base64_encode x ≠ [] := by
        intro h
        rw [h] at hlen
        simp at hlen
        omega
      rw [base64_decode, if_neg hne]
      have hmod : (base64_encode x).length % 4 = 0 := by
        rw [hlen]
        omega
      rw [if_neg (by omega : ¬((base64_encode x).length % 4 ≠ 0))]
      refine decodeLoop_encode x hx _ _ 0 (by omega) ?_ ?_
      · intro h2
        exact (padCount_encode_mod2 x h2).ge
      · intro h1
        exact (padCount_encode_mod1 x h1).ge
  · intro s
    by_cases hs : s = []
    · subst hs
      exact Or.inl ⟨[], rfl⟩
    rw [base64_decode, if_neg hs]
    by_cases hm : s.length % 4 ≠ 0
    · rw [if_pos hm]
      exact Or.inr rfl
    · rw [if_neg hm]
      exact decodeLoop_cases s s.length (padCount s) 0

theorem base64_roundtrip_witness :
    (∀ b ∈ [72, 105, 33], b < 256) ∧
      base64_decode (base64_encode [72, 105, 33]) = Except.ok [72, 105, 33] :=
  ⟨by decide, base64_roundtrip.1 [72, 105, 33] (by decide)⟩

/-- C4: `base64_decode` classifies inputs: empty text decodes to the empty
byte sequence; a length that is not a multiple of four fails with
invalid-encoding; a character outside the 65-symbol alphabet fails with
invalid-encoding; a padding character anywhere before the final two
positions fails with invalid-encoding; and otherwise (all characters data
symbols except for 1 or 2 trailing padding characters) decoding succeeds,
each 4-character group producing 3 bytes with the last 1 or 2 bytes of the
final group dropped when 1 or 2 trailing padding characters are present. -/
theorem base64_decode_classification :
    base64_decode [] = Except.ok [] ∧
    (∀ s : List Char, s.length % 4 ≠ 0 →
      base64_decode s = Except.error error_code.invalid_base64_encoding) ∧
    (∀ s : List Char, (∃ c ∈ s, c ∉ encode_table ∧ c ≠ '=') →
      base64_decode s = Except.error error_code.invalid_base64_encoding) ∧
    (∀ (s : List Char) (j : Nat), j < s.length - 2 → s.getD j ' ' = '=' →
      base64_decode s = Except.error error_code.invalid_base64_encoding) ∧
    (∀ (ys : List Char) (p : Nat), p ≤ 2 → ('=') ∉ ys →
      (∀ c ∈ ys, c ∈ encode_table) → (ys.length + p) % 4 = 0 →
      ∃ bs, base64_decode (ys ++ List.replicate p '=') = Except.ok bs ∧
        bs.length = (ys.length + p) / 4 * 3 - p) := by
  refine ⟨rfl, ?_, ?_, ?_, ?_⟩
  · intro s h
    by_cases hs : s = []
    · subst hs
      simp at h
    · rw [base64_decode, if_neg hs, if_pos h]
  · rintro s ⟨c, hc, hcm, hce⟩
    by_cases hs : s = []
    · subst hs
      simp at hc
    by_cases hm : s.length % 4 ≠ 0
    · rw [base64_decode, if_neg hs, if_pos hm]
    rw [base64_decode, if_neg hs, if_neg hm]
    rcases decodeLoop_cases s s.length (padCount s) 0 with ⟨bs, hbs⟩ | herr
    · exfalso
      have hval := decodeLoop_valid_of_ok s s.length (padCount s) 0 bs (by omega) hbs
      exact hval.1 c hc (decode_table_eq_neg_one c hcm hce)
    · exact herr
  · intro s j hj hpadj
    have hs3 : 3 ≤ s.length := by omega
    have hs : s ≠ [] := by
      intro h
      rw [h] at hs3
      simp at hs3
    by_cases hm : s.length % 4 ≠ 0
    · rw [base64_decode, if_neg hs, if_pos hm]
    rw [base64_decode, if_neg hs, if_neg hm]
    rcases decodeLoop_cases s s.length (padCount s) 0 with ⟨bs, hbs⟩ | herr
    · exfalso
      have hval := decodeLoop_valid_of_ok s s.length (padCount s) 0 bs (by omega) hbs
      have hle := hval.2 j (by omega) hpadj
      have hp2 := padCount_le_two s
      omega
    · exact herr
  · intro ys p hp hmem hymem hlen4
    by_cases hys0 : ys = []
    · subst hys0
      have hp0 : p = 0 := by
        simp at hlen4
        omega
      subst hp0
      exact ⟨[], rfl, by simp⟩
    · have hslen : (ys ++ List.replicate p '=').length = ys.length + p := by simp
      have hsne : ys ++ List.replicate p '=' ≠ [] := by simp [hys0]
      have hpadc := padCount_pad_suffix ys p hp hmem hlen4
      have hcnt : (ys ++ List.replicate p '=').count '=' = p := by
        rw [List.count_append, List.count_eq_zero.mpr hmem]
        simp
      have hnone : ∀ c ∈ ys ++ List.replicate p '=', decode_table c ≠ -1 := by
        intro c hc
        rcases List.mem_append.mp hc with hcy | hcr
        · exact decode_table_ne_neg_one_of_mem c (hymem c hcy)
        · rw [List.eq_of_mem_replicate hcr, decode_table_pad]
          decide
      have hpos : ∀ j, j < (ys ++ List.replicate p '=').length →
          (ys ++ List.replicate p '=').getD j ' ' = '=' →
          (ys ++ List.replicate p '=').length - p ≤ 0 + j := by
        intro j hj hpj
        by_cases hjy : j < ys.length
        · exfalso
          rw [getD_append_left ys _ j ' ' hjy] at hpj
          exact hmem (hpj ▸ getD_mem_of_lt ys j ' ' hjy)
        · rw [hslen]
          omega
      obtain ⟨bs, hok, hblen, _⟩ := decodeLoop_ok_of_valid (ys ++ List.replicate p '=')
        (ys ++ List.replicate p '=').length p 0 (by rw [hslen]; exact hlen4) hp
        (by omega) hnone hpos
      refine ⟨bs, ?_, ?_⟩
      · rw [base64_decode, if_neg hsne, if_neg (by rw [hslen]; omega), hpadc]
        exact hok
      · rw [hblen, hslen, hcnt]

theorem base64_decode_classification_witness :
    (['A'] : List Char).length % 4 ≠ 0 ∧
      base64_decode ['A'] = Except.error error_code.invalid_base64_encoding :=
  ⟨by decide, base64_decode_classification.2.1 ['A'] (by decide)⟩

/-- C8: `base64_encode` satisfies the literal test vectors, its output
length is always a multiple of four, and a final partial group of 1 or 2
input bytes produces exactly 2 or 1 trailing padding characters
respectively. -/
theorem base64_encode_vectors :
    base64_encode [] = [] ∧
    base64_encode [97, 98, 99] = ("YWJj").toList ∧
    base64_encode [97, 98, 99, 100] = ("YWJjZA==").toList ∧
    base64_encode [97, 98, 99, 100, 101] = ("YWJjZGU=").toList ∧
    base64_encode [72, 101, 108, 108, 111, 44, 32, 87, 111, 114, 108, 100, 33] =
      ("SGVsbG8sIFdvcmxkIQ==").toList ∧
    (∀ x : List Nat, (base64_encode x).length % 4 = 0) ∧
    (∀ x : List Nat, x.length % 3 = 1 →
      ∃ ys, base64_encode x = ys ++ ['=', '='] ∧ ('=') ∉ ys) ∧
    (∀ x : List Nat, x.length % 3 = 2 →
      ∃ ys c, base64_encode x = ys ++ [c, '='] ∧ ('=') ∉ ys ∧ c ≠ '=') := by
  refine ⟨by decide, by decide, by decide, by decide, by decide, ?_,
    encode_mod1, encode_mod2⟩
  intro x
  rw [encode_length x]
  omega

theorem base64_encode_vectors_witness :
    ([77] : List Nat).length % 3 = 1 ∧
      ∃ ys, base64_encode [77] = ys ++ ['=', '='] ∧ ('=') ∉ ys :=
  ⟨by decide, base64_encode_vectors.2.2.2.2.2.2.1 [77] (by decide)⟩

/-- C9: the decoder does not require the unused padding bits of a final
partial group to be zero, so encoding is not a left inverse of decoding:
decode of "QR==" succeeds with the single byte 65, but encoding that byte
yields "QQ==", a different text, so the decoder accepts non-canonical
encodings. -/
theorem base64_non_canonical_decode :
    base64_decode (("QR==").toList) = Except.ok [65] ∧
    base64_encode [65] = ("QQ==").toList ∧
    ("QQ==").toList ≠ ("QR==").toList := by decide

end vsocky
